import Mathlib

/-!
# Verification of the GitHub_Summarizer aggregation pipeline and presenter

Shallow embedding of the two source files:
* `src/pages/api/fetch.js` — the API route `handler` (profile fetch, repo fetch,
  fork filtering, language statistics, top-3 ranking by stars, best-effort
  commit-activity enrichment, error handling);
* `src/unnamed/part_000` — the page component (`ProjectCard`, `Home`,
  `isSandboxCompatible`, `getFilteredProjects`, sandbox/maximize toggling).

JavaScript machine behaviour is modelled explicitly: `Array.prototype.sort` is
a stable sort consistent with the numeric comparator (ES2019 guarantees
stability, and a stable sort for a total preorder comparator is unique, so
`List.mergeSort` is a faithful model); string interpolation of an absent field
yields the text "undefined"; `x || y` treats `null`/`undefined`/`""` as falsy.
-/

namespace GitHubSummarizer

/-! ## Data model (shapes of the upstream JSON consumed by fetch.js) -/

/-- Fields of the GitHub `/users/{username}` response read by the handler. -/
structure UserData where
  login : String
  name : Option String
  avatar_url : String
  bio : Option String
  public_repos : Nat
  followers : Nat
  following : Nat
  created_at : String
deriving DecidableEq

/-- Fields of one element of the `/users/{username}/repos` response read by
the handler. -/
structure RawRepo where
  name : String
  html_url : String
  description : Option String
  stargazers_count : Nat
  forks_count : Nat
  language : Option String
  updated_at : String
  fork : Bool
deriving DecidableEq

/-- One element of the `stats/commit_activity` response: `{week, total, days}`
(the handler reads only `week` and `total`). -/
structure RawWeek where
  week : Nat
  total : Nat
deriving DecidableEq

/-- A `{week, total}` pair as rebuilt by the handler. -/
structure Week where
  week : Nat
  total : Nat
deriving DecidableEq

/-- JavaScript `x || y` on an optional string: `null`/`undefined` and the empty
string are falsy. -/
def jsOrString (x : Option String) (y : String) : String :=
  match x with
  | some s => if s = "" then y else s
  | none => y

/-- The `profile` object assembled from the `/users` response
(fetch.js lines 13–22); `name` falls back to `login`. -/
structure Profile where
  login : String
  name : String
  avatar_url : String
  bio : Option String
  public_repos : Nat
  followers : Nat
  following : Nat
  created_at : String
deriving DecidableEq

def mkProfile (u : UserData) : Profile :=
  { login := u.login
    name := jsOrString u.name u.login
    avatar_url := u.avatar_url
    bio := u.bio
    public_repos := u.public_repos
    followers := u.followers
    following := u.following
    created_at := u.created_at }

/-! ## Fork filtering and language statistics (fetch.js lines 29–37) -/

/-- `reposRes.data.filter(r => !r.fork)` — the non-fork repositories. -/
def allReposOf (repos : List RawRepo) : List RawRepo :=
  repos.filter (fun r => !r.fork)

/-- The `languageStats` object built by
`allRepos.forEach(repo => { if (repo.language) languageStats[lang] = (languageStats[lang] || 0) + 1 })`,
modelled as the function from language name to count. -/
def languageStats (repos : List RawRepo) : String → Nat :=
  repos.foldl
    (fun stats repo =>
      match repo.language with
      | some l => fun k => if k = l then stats k + 1 else stats k
      | none => stats)
    (fun _ => 0)

/-- The primary languages of the given repositories, in list order
(one entry per repository that has a non-null language). -/
def langsOf (repos : List RawRepo) : List String :=
  repos.filterMap (fun r => r.language)

/-! ## Top-3 ranking by stars (fetch.js lines 40–42) -/

/-- The comparator `(a,b) => b.stargazers_count - a.stargazers_count` as the
boolean "a may come before b" relation: the comparator is ≤ 0 exactly when
`b.stargazers_count ≤ a.stargazers_count`. -/
def starsLe (a b : RawRepo) : Bool :=
  b.stargazers_count ≤ a.stargazers_count

/-- `allRepos.sort((a,b) => b.stargazers_count - a.stargazers_count)`:
a stable sort by star count descending. -/
def rankedRepos (repos : List RawRepo) : List RawRepo :=
  (allReposOf repos).mergeSort starsLe

/-- `.slice(0,3)` — the top 3 repositories by stars. -/
def topRepos (repos : List RawRepo) : List RawRepo :=
  (rankedRepos repos).take 3

/-! ## Commit-activity enrichment (fetch.js lines 45–73) -/

/-- `commitRes.data.map(week => ({ week: week.week, total: week.total }))`. -/
def toWeeks (data : List RawWeek) : List Week :=
  data.map (fun w => ⟨w.week, w.total⟩)

/-- JavaScript `arr.slice(-4)`: the last `min 4 arr.length` elements. -/
def sliceLast4 (l : List Week) : List Week :=
  l.drop (l.length - 4)

/-- `commitWeeks.slice(-4).reduce((sum, w) => sum + (w.total||0), 0)`. -/
def recentCommits (commitWeeks : List Week) : Nat :=
  (sliceLast4 commitWeeks).foldl (fun sum w => sum + w.total) 0

/-- The per-project record returned by the `topRepos.map` callback
(fetch.js lines 62–72). -/
structure Project where
  name : String
  html_url : String
  description : Option String
  stars : Nat
  forks : Nat
  language : Option String
  last_updated : String
  recentCommits : Nat
  commitWeeks : List Week
  /-- The API never fetches topics, so `proj.topics` is absent (`none`) for
  every project the handler produces; the page still reads it. -/
  topics : Option (List String)
deriving DecidableEq

/-- One arm of the `Promise.all(topRepos.map(...))`: the commit-activity fetch
result (`none` models a failed request or the upstream "not yet computed"
condition, both landing in the empty `catch`) and the record built from it. -/
def enrichRepo (repo : RawRepo) (activityResult : Option (List RawWeek)) : Project :=
  let commitWeeks :=
    match activityResult with
    | some data => toWeeks data
    | none => []
  { name := repo.name
    html_url := repo.html_url
    description := repo.description
    stars := repo.stargazers_count
    forks := repo.forks_count
    language := repo.language
    last_updated := repo.updated_at
    recentCommits := recentCommits commitWeeks
    commitWeeks := commitWeeks
    topics := none }

/-- The `projects` array: each selected repository enriched with its own
commit-activity result (the fetches are independent; each result is a function
of the repository's name only). -/
def projectsOf (repos : List RawRepo) (activity : String → Option (List RawWeek)) :
    List Project :=
  (topRepos repos).map (fun repo => enrichRepo repo (activity repo.name))

/-! ## The HTTP handler (fetch.js lines 4–80) -/

/-- The upstream GitHub API, as the handler observes it: each endpoint either
returns parsed data or fails (`none` covers network errors, 404s, and the
202 "not yet computed" reply for commit activity). -/
structure Upstream where
  user : String → Option UserData
  repos : String → Option (List RawRepo)
  activity : String → String → Option (List RawWeek)

/-- The JSON body the handler writes: the success payload of line 76 or the
error payload of line 79. -/
inductive ApiBody
  | success (profile : Profile) (languageStats : String → Nat) (projects : List Project)
  | failure (error : String)

/-- An HTTP response: status code plus optional JSON body
(`res.status(405).end()` sends no body). -/
structure ApiResponse where
  status : Nat
  body : Option ApiBody

def profileUrl (username : String) : String :=
  "https://api.github.com/users/" ++ username

def reposUrl (username : String) : String :=
  "https://api.github.com/users/" ++ username ++ "/repos?per_page=100&sort=updated"

def activityUrl (username repoName : String) : String :=
  "https://api.github.com/repos/" ++ username ++ "/" ++ repoName ++ "/stats/commit_activity"

/-- Template-literal interpolation of `req.body.username`: an absent field is
`undefined` and prints as the text "undefined". -/
def interpolate (username : Option String) : String :=
  username.getD "undefined"

/-- The API route handler. Inputs: the request method, the `username` field of
the request body (`none` when missing), and the upstream behaviour. Output:
the response together with the list of outbound request URLs actually issued,
in order. The try/catch of lines 8–80 turns any profile- or repo-fetch failure
into a 500; commit-activity failures are absorbed inside the map callback. -/
def handler (method : String) (username : Option String) (up : Upstream) :
    ApiResponse × List String :=
  if method ≠ "POST" then
    ({ status := 405, body := none }, [])
  else
    let uname := interpolate username
    match up.user uname with
    | none =>
      ({ status := 500, body := some (.failure "Failed to fetch GitHub data.") },
       [profileUrl uname])
    | some u =>
      match up.repos uname with
      | none =>
        ({ status := 500, body := some (.failure "Failed to fetch GitHub data.") },
         [profileUrl uname, reposUrl uname])
      | some rs =>
        ({ status := 200
           body := some (.success (mkProfile u) (languageStats (allReposOf rs))
             (projectsOf rs (up.activity uname))) },
         [profileUrl uname, reposUrl uname]
           ++ (topRepos rs).map (fun repo => activityUrl uname repo.name))

/-! ## The page component (src/unnamed/part_000) -/

/-- The fixed whitelist `compatibleLanguages` (part_000 line 12). -/
def compatibleLanguages : List String :=
  ["JavaScript", "TypeScript", "React", "Vue", "Angular", "HTML"]

/-- The fixed whitelist of topic keywords (part_000 line 15). -/
def compatibleTopics : List String :=
  ["react", "javascript", "typescript", "vue", "frontend"]

/-- `isSandboxCompatible` (part_000 lines 11–17):
`compatibleLanguages.includes(proj.language) || (proj.topics && proj.topics.some(topic => topicList.includes(topic.toLowerCase())))`.
A `null` language is not in the list; an absent `topics` field is falsy. -/
def isSandboxCompatible (proj : Project) : Bool :=
  (match proj.language with
   | some l => compatibleLanguages.contains l
   | none => false)
  || (match proj.topics with
      | some ts => ts.any (fun t => compatibleTopics.contains t.toLower)
      | none => false)

/-- The button group of part_000 lines 60–79 is rendered exactly when
`isSandboxCompatible()` holds, so the sandbox toggle is exposed iff that
predicate is true. -/
def rendersSandboxToggle (proj : Project) : Bool :=
  isSandboxCompatible proj

/-! ### Per-card local state (`useState` in ProjectCard, lines 5–6) -/

/-- The two `useState(false)` hooks of one `ProjectCard`. -/
structure CardState where
  showSandbox : Bool
  isMaximized : Bool
deriving DecidableEq

def initCard : CardState := ⟨false, false⟩

/-- The UI state of the rendered project grid: one `CardState` per card, plus
the `Home`-level `maximizedProject` state (part_000 line 116), which no code
ever reads or writes. -/
structure UiState where
  cards : List CardState
  maximizedProject : Option Nat
deriving DecidableEq

def initUi (n : Nat) : UiState :=
  ⟨List.replicate n initCard, none⟩

/-- A click on one of the interactive buttons of card `i`. -/
inductive UiAction
  | toggleSandbox (i : Nat)
  | toggleMaximize (i : Nat)

/-- One UI transition. `none` means the clicked button is not rendered in the
given state: the sandbox toggle exists only on compatible cards (line 60), the
maximize button only when the sandbox is shown on a compatible card
(lines 69–77), the close button only when the sandbox is shown and the card is
maximized (lines 35–43); both maximize buttons run `toggleMaximize`, which
flips only this card's own `isMaximized` flag (lines 19–22). -/
def uiStep (compat : Nat → Bool) (s : UiState) : UiAction → Option UiState
  | .toggleSandbox i =>
    match s.cards[i]? with
    | some c =>
      if compat i then
        some { s with cards := s.cards.set i { c with showSandbox := !c.showSandbox } }
      else none
    | none => none
  | .toggleMaximize i =>
    match s.cards[i]? with
    | some c =>
      if c.showSandbox && (compat i || c.isMaximized) then
        some { s with cards := s.cards.set i { c with isMaximized := !c.isMaximized } }
      else none
    | none => none

/-- Run a sequence of clicks from a state. -/
def runUi (compat : Nat → Bool) (s : UiState) : List UiAction → Option UiState
  | [] => some s
  | a :: rest =>
    match uiStep compat s a with
    | some s' => runUi compat s' rest
    | none => none

/-- A state is reachable when some click sequence produces it from the initial
render of `n` cards. -/
def Reachable (compat : Nat → Bool) (n : Nat) (s : UiState) : Prop :=
  ∃ acts, runUi compat (initUi n) acts = some s

/-- How many cards are currently in the expanded (maximized) state. -/
def expandedCount (s : UiState) : Nat :=
  (s.cards.filter (fun c => c.isMaximized)).length

/-! ### Sorting and filtering (`getFilteredProjects`, part_000 lines 154–179) -/

/-- The component state read by `getFilteredProjects`: `data.projects`
(`none` when no data is loaded), the sort key string from the select, and the
language filter (`""` = all languages). -/
structure HomeState where
  data : Option (List Project)
  sortBy : String
  filterLanguage : String
deriving DecidableEq

/-- The switch-comparator of lines 165–176, parametrised by the environment's
`localeCompare` collation `lc` (negative/zero/positive `Int`); unknown sort
keys hit the `default: return 0` branch. -/
def projCmp (lc : String → String → Int) (sortBy : String) (a b : Project) : Int :=
  if sortBy = "stars" then (b.stars : Int) - (a.stars : Int)
  else if sortBy = "recent" then (b.recentCommits : Int) - (a.recentCommits : Int)
  else if sortBy = "name" then lc a.name b.name
  else 0

/-- "a may be placed before b": the comparator is ≤ 0. -/
def sortLe (lc : String → String → Int) (sortBy : String) (a b : Project) : Bool :=
  projCmp lc sortBy a b ≤ 0

/-- The `if (filterLanguage) filtered = filtered.filter(proj => proj.language === filterLanguage)`
step (lines 160–162); `null === filterLanguage` is false. -/
def filterStep (filterLanguage : String) (ps : List Project) : List Project :=
  if filterLanguage ≠ "" then ps.filter (fun p => p.language = some filterLanguage) else ps

/-- `getFilteredProjects` (lines 154–179). `[...data.projects]` copies the
array, `filter` allocates a fresh array, and the in-place `.sort` therefore
mutates only the copy, never `data.projects`; the embedding returns the
displayed list together with the (unchanged) component state so that the
frame property is explicit. -/
def getFilteredProjects (lc : String → String → Int) (st : HomeState) :
    List Project × HomeState :=
  match st.data with
  | none => ([], st)
  | some projects =>
    let filtered := filterStep st.filterLanguage projects
    let filtered := filtered.mergeSort (sortLe lc st.sortBy)
    (filtered, st)

/-- Sorting by the name key alone (the `case 'name': return a.name.localeCompare(b.name)`
arm applied by the stable `.sort`). -/
def sortByName (lc : String → String → Int) (ps : List Project) : List Project :=
  ps.mergeSort (sortLe lc "name")

/-! ## Helper objects and lemmas -/

/-- An upstream where every call fails. -/
def upNone : Upstream :=
  { user := fun _ => none, repos := fun _ => none, activity := fun _ _ => none }

/-- Folding addition of week totals equals the sum of the mapped totals. -/
lemma foldl_add_totals (l : List Week) (n : Nat) :
    l.foldl (fun sum w => sum + w.total) n = n + (l.map Week.total).sum := by
  induction l generalizing n with
  | nil => simp
  | cons w rest ih => simp [ih, Nat.add_assoc]

/-! ## Theorems for the claims -/

/-- **C10.** For every inbound request whose HTTP method is not POST, the
handler responds with status 405 and an empty body, issues no outbound call,
and the response does not depend on the request body or the upstream (the body
is never read). -/
theorem C10_non_post_rejected (m : String) (username : Option String) (up : Upstream)
    (h : m ≠ "POST") :
    (handler m username up).1.status = 405
    ∧ (handler m username up).1.body = none
    ∧ (handler m username up).2 = []
    ∧ ∀ (username' : Option String) (up' : Upstream),
        handler m username' up' = handler m username up := by
  refine ⟨?_, ?_, ?_, ?_⟩ <;> simp [handler, h]

/-- Witness for C10 at the concrete method "GET". -/
theorem C10_non_post_rejected_witness :
    ("GET" : String) ≠ "POST"
    ∧ ((handler "GET" (some "octocat") upNone).1.status = 405
      ∧ (handler "GET" (some "octocat") upNone).1.body = none
      ∧ (handler "GET" (some "octocat") upNone).2 = []
      ∧ ∀ (username' : Option String) (up' : Upstream),
          handler "GET" username' up' = handler "GET" (some "octocat") upNone) :=
  ⟨by decide, C10_non_post_rejected "GET" (some "octocat") upNone (by decide)⟩

/-- **C1 counterexample.** A POST request with a missing username is *not*
rejected with a client-error status before contacting the external system: the
handler interpolates the absent field as the text "undefined", issues the
outbound profile request, and reports the resulting failure as server-error
500 — refuting "invalid input never triggers an outbound call" and the
client-error/server-error distinction the claim describes. -/
theorem C1_no_input_validation_counterexample :
    (handler "POST" none upNone).2 = [profileUrl "undefined"]
    ∧ (handler "POST" none upNone).1.status = 500
    ∧ ¬ (handler "POST" none upNone).2 = [] := by
  refine ⟨rfl, rfl, by simp [handler, upNone, interpolate]⟩

/-- **C1 amended.** The handler performs no username validation: every POST
request issues the outbound profile call (with a missing username interpolated
as "undefined"), any failure of the profile or repository-list fetch is
reported with the single server-error status 500, the only client-error status
the handler produces is 405 for non-POST methods, and a POST request always
ends in status 200 or 500. -/
theorem C1_error_statuses (username : Option String) (up : Upstream) :
    profileUrl (interpolate username) ∈ (handler "POST" username up).2
    ∧ ((up.user (interpolate username) = none ∨ up.repos (interpolate username) = none) →
        (handler "POST" username up).1.status = 500)
    ∧ (∀ m : String, m ≠ "POST" → (handler m username up).1.status = 405)
    ∧ ((handler "POST" username up).1.status = 200
        ∨ (handler "POST" username up).1.status = 500) := by
  refine ⟨?_, ?_, ?_, ?_⟩
  · cases hu : up.user (interpolate username) with
    | none => simp [handler, hu]
    | some u =>
      cases hr : up.repos (interpolate username) with
      | none => simp [handler, hu, hr]
      | some rs => simp [handler, hu, hr]
  · rintro (hu | hr)
    · simp [handler, hu]
    · cases hu : up.user (interpolate username) with
      | none => simp [handler, hu]
      | some u => simp [handler, hu, hr]
  · intro m hm
    simp [handler, hm]
  · cases hu : up.user (interpolate username) with
    | none => simp [handler, hu]
    | some u =>
      cases hr : up.repos (interpolate username) with
      | none => simp [handler, hu, hr]
      | some rs => simp [handler, hu, hr]

/-- Witness for C1 (amended) at a concrete failing upstream. -/
theorem C1_error_statuses_witness :
    (upNone.user (interpolate none) = none ∨ upNone.repos (interpolate none) = none)
    ∧ (handler "POST" none upNone).1.status = 500 :=
  ⟨Or.inl rfl, (C1_error_statuses none upNone).2.1 (Or.inl rfl)⟩

/-- **C3.** For a weekly commit series of length `N`, the derived
`recentCommits` is the sum of the totals of the last 4 entries when `N ≥ 4`
(and there are exactly 4 such entries), the sum of all entries' totals when
`N < 4`, and 0 for the empty series. -/
theorem C3_recentCommits (ws : List Week) :
    (4 ≤ ws.length →
      recentCommits ws = ((ws.rtake 4).map Week.total).sum ∧ (ws.rtake 4).length = 4)
    ∧ (ws.length < 4 → recentCommits ws = (ws.map Week.total).sum)
    ∧ (ws = [] → recentCommits ws = 0) := by
  refine ⟨fun h => ⟨?_, ?_⟩, fun h => ?_, fun h => ?_⟩
  · simp [recentCommits, sliceLast4, List.rtake, foldl_add_totals]
  · simp [List.rtake]; omega
  · have hz : ws.length - 4 = 0 := by omega
    simp [recentCommits, sliceLast4, hz, foldl_add_totals]
  · subst h; rfl

/-- Witness for C3 on a concrete 5-week series (hypothesis `4 ≤ length`). -/
theorem C3_recentCommits_witness :
    4 ≤ ([⟨1, 2⟩, ⟨2, 3⟩, ⟨3, 4⟩, ⟨4, 5⟩, ⟨5, 6⟩] : List Week).length
    ∧ recentCommits [⟨1, 2⟩, ⟨2, 3⟩, ⟨3, 4⟩, ⟨4, 5⟩, ⟨5, 6⟩]
        = ((([⟨1, 2⟩, ⟨2, 3⟩, ⟨3, 4⟩, ⟨4, 5⟩, ⟨5, 6⟩] : List Week).rtake 4).map Week.total).sum
    ∧ recentCommits [⟨1, 2⟩, ⟨2, 3⟩, ⟨3, 4⟩, ⟨4, 5⟩, ⟨5, 6⟩] = 18 :=
  ⟨by decide,
    ((C3_recentCommits [⟨1, 2⟩, ⟨2, 3⟩, ⟨3, 4⟩, ⟨4, 5⟩, ⟨5, 6⟩]).1 (by decide)).1,
    by decide⟩

/-- The value of the language-statistics fold at key `k`, for any starting
accumulator. -/
lemma languageStats_foldl (repos : List RawRepo) (stats : String → Nat) (k : String) :
    (repos.foldl
      (fun stats repo =>
        match repo.language with
        | some l => fun k' => if k' = l then stats k' + 1 else stats k'
        | none => stats)
      stats) k
      = stats k + (langsOf repos).count k := by
  induction repos generalizing stats with
  | nil => simp [langsOf]
  | cons r rest ih =>
    cases hl : r.language with
    | none => simp [langsOf, List.filterMap_cons, hl, ih]
    | some l =>
      simp only [List.foldl_cons, hl, ih, langsOf, List.filterMap_cons, List.count_cons]
      by_cases hk : k = l
      · subst hk; simp; omega
      · simp [hk, Ne.symm hk]

/-- `languageStats` counts occurrences among the repositories' languages. -/
lemma languageStats_eq_count (repos : List RawRepo) (k : String) :
    languageStats repos k = (langsOf repos).count k := by
  simpa using languageStats_foldl repos (fun _ => 0) k

/-- Occurrences of a language among `langsOf` are exactly the repositories
whose primary language is that language. -/
lemma count_langsOf (repos : List RawRepo) (k : String) :
    (langsOf repos).count k
      = (repos.filter (fun r => r.language == some k)).length := by
  induction repos with
  | nil => simp [langsOf]
  | cons r rest ih =>
    simp only [langsOf] at ih
    cases hl : r.language with
    | none => simp [langsOf, List.filterMap_cons, hl, List.filter_cons, ih]
    | some l =>
      by_cases hk : l = k
      · subst hk
        simp [langsOf, List.filterMap_cons, hl, List.filter_cons, List.count_cons, ih]
      · simp [langsOf, List.filterMap_cons, hl, List.filter_cons, List.count_cons, hk, ih]

/-- The number of languages extracted equals the number of repositories with a
non-null primary language. -/
lemma length_langsOf (repos : List RawRepo) :
    (langsOf repos).length = (repos.filter (fun r => r.language.isSome)).length := by
  induction repos with
  | nil => simp [langsOf]
  | cons r rest ih =>
    simp only [langsOf] at ih
    cases hl : r.language with
    | none => simp [langsOf, List.filterMap_cons, hl, List.filter_cons, ih]
    | some l => simp [langsOf, List.filterMap_cons, hl, List.filter_cons, ih]

/-- **C4.** The language-statistics mapping computed over the fetched
repository list counts exactly the non-fork repositories: the counter of each
language `l` equals the number of non-fork repositories whose primary language
is `l` (so repositories without a primary language contribute to no counter),
and the counters summed over the distinct languages present equal the number
of non-fork repositories that have a non-null primary language. -/
theorem C4_languageStats_counts (repos : List RawRepo) (l : String) :
    languageStats (allReposOf repos) l
      = ((allReposOf repos).filter (fun r => r.language == some l)).length
    ∧ ((langsOf (allReposOf repos)).dedup.map (languageStats (allReposOf repos))).sum
      = ((allReposOf repos).filter (fun r => r.language.isSome)).length := by
  constructor
  · rw [languageStats_eq_count, count_langsOf]
  · have hmap : (langsOf (allReposOf repos)).dedup.map (languageStats (allReposOf repos))
        = (langsOf (allReposOf repos)).dedup.map
            (fun k => (langsOf (allReposOf repos)).count k) := by
      apply List.map_congr_left
      intro k _
      exact languageStats_eq_count (allReposOf repos) k
    rw [hmap, List.sum_map_count_dedup_eq_length, length_langsOf]

lemma starsLe_trans : ∀ a b c : RawRepo, starsLe a b → starsLe b c → starsLe a c := by
  intro a b c hab hbc
  simp only [starsLe, decide_eq_true_eq] at *
  omega

lemma starsLe_total : ∀ a b : RawRepo, starsLe a b || starsLe b a := by
  intro a b
  simp only [starsLe, Bool.or_eq_true, decide_eq_true_eq]
  omega

/-- A stable sort leaves the relative order of tied elements unchanged: if all
elements selected by `p` are mutually `le`-tied, then filtering the sorted list
by `p` gives exactly the filter of the input. -/
lemma filter_mergeSort_of_ties {α : Type} (le : α → α → Bool) (p : α → Bool)
    (htrans : ∀ a b c : α, le a b → le b c → le a c)
    (htotal : ∀ a b : α, le a b || le b a)
    (hties : ∀ a b : α, p a = true → p b = true → le a b = true)
    (l : List α) :
    (l.mergeSort le).filter p = l.filter p := by
  have hpw : (l.filter p).Pairwise (fun a b => le a b = true) :=
    List.pairwise_of_forall_mem_list fun a ha b hb =>
      hties a b (List.mem_filter.mp ha).2 (List.mem_filter.mp hb).2
  have hsub : List.Sublist (l.filter p) (l.mergeSort le) :=
    List.sublist_mergeSort htrans htotal hpw (List.filter_sublist l)
  have hsub2 : List.Sublist ((l.filter p).filter p) ((l.mergeSort le).filter p) :=
    List.Sublist.filter p hsub
  rw [List.filter_eq_self.mpr (fun a ha => (List.mem_filter.mp ha).2)] at hsub2
  have hperm : List.Perm ((l.mergeSort le).filter p) (l.filter p) :=
    (List.mergeSort_perm l le).filter p
  exact (List.Sublist.eq_of_length hsub2 hperm.length_eq.symm).symm

/-- **C5.** The selected project list is drawn from the fetched list and
contains only non-fork repositories, its length is `min 3 (number of non-fork
repositories)`, the ranking is by star count descending, and repositories with
tied star counts keep the order in which the upstream list arrived (the sort
is stable: for every star value, the ranked list restricted to that value is
exactly the non-fork list restricted to it). -/
theorem C5_topRepos_selection (repos : List RawRepo) :
    (∀ r, r ∈ topRepos repos → r ∈ repos ∧ r.fork = false)
    ∧ (topRepos repos).length = min 3 (allReposOf repos).length
    ∧ (topRepos repos).Pairwise (fun a b => b.stargazers_count ≤ a.stargazers_count)
    ∧ ∀ s : Nat,
        (rankedRepos repos).filter (fun r => r.stargazers_count == s)
          = (allReposOf repos).filter (fun r => r.stargazers_count == s) := by
  refine ⟨?_, ?_, ?_, ?_⟩
  · intro r hr
    have hm : r ∈ rankedRepos repos := List.mem_of_mem_take hr
    have hm2 : r ∈ allReposOf repos := by
      simpa [rankedRepos] using hm
    have := List.mem_filter.mp hm2
    refine ⟨this.1, by simpa using this.2⟩
  · simp [topRepos, rankedRepos]
  · have hs : (rankedRepos repos).Pairwise (fun a b => starsLe a b = true) :=
      List.sorted_mergeSort starsLe_trans starsLe_total (allReposOf repos)
    have ht : (topRepos repos).Pairwise (fun a b => starsLe a b = true) :=
      hs.sublist (List.take_sublist 3 (rankedRepos repos))
    exact ht.imp (fun h => by simpa [starsLe] using h)
  · intro s
    apply filter_mergeSort_of_ties starsLe _ starsLe_trans starsLe_total
    intro a b ha hb
    have ha' : a.stargazers_count = s := by simpa using ha
    have hb' : b.stargazers_count = s := by simpa using hb
    simp [starsLe, ha', hb']

/-- Shorthand for building concrete repositories in witnesses. -/
def mkRepo (name : String) (stars : Nat) (language : Option String) (fork : Bool) : RawRepo :=
  { name := name
    html_url := ""
    description := none
    stargazers_count := stars
    forks_count := 0
    language := language
    updated_at := ""
    fork := fork }

def repoA : RawRepo := mkRepo "alpha" 50 (some "Python") false

def repoB : RawRepo := mkRepo "beta" 10 (some "TypeScript") false

/-- A fork with the most stars: it must never be selected. -/
def repoF : RawRepo := mkRepo "gamma" 100 (some "C") true

def demoRepos : List RawRepo := [repoF, repoB, repoA]

unseal List.merge List.mergeSort in
/-- Witness for C5 on a concrete list: the highest-starred non-fork repository
is selected and reported as a non-fork member of the fetched list. -/
theorem C5_topRepos_selection_witness :
    repoA ∈ topRepos demoRepos ∧ (repoA ∈ demoRepos ∧ repoA.fork = false) :=
  ⟨by decide, (C5_topRepos_selection demoRepos).1 repoA (by decide)⟩

/-- The commit-activity fetch function used in witnesses: it fails for
"alpha" and succeeds for every other repository. -/
def demoActivity : String → Option (List RawWeek) :=
  fun n => if n = "alpha" then none else some [⟨1, 5⟩]

/-- **C6.** Commit-activity enrichment is best-effort and per-repository: a
selected repository whose activity fetch fails (or whose data is not yet
computed upstream) still appears in the result with an empty weekly series and
`recentCommits = 0`; every selected repository yields a project (the failure
drops nothing); the enrichment of any other repository depends only on its own
fetch result; and the overall request still succeeds with status 200 whenever
the profile and repository-list fetches succeed, whatever the activity
results. -/
theorem C6_activity_best_effort (repos : List RawRepo)
    (activity activity' : String → Option (List RawWeek)) (r : RawRepo)
    (hr : r ∈ topRepos repos) (hfail : activity r.name = none)
    (hagree : ∀ n, n ≠ r.name → activity' n = activity n) :
    (enrichRepo r (activity r.name)).commitWeeks = []
    ∧ (enrichRepo r (activity r.name)).recentCommits = 0
    ∧ enrichRepo r (activity r.name) ∈ projectsOf repos activity
    ∧ (projectsOf repos activity).length = (topRepos repos).length
    ∧ (∀ r', r' ∈ topRepos repos → r'.name ≠ r.name →
        enrichRepo r' (activity' r'.name) = enrichRepo r' (activity r'.name))
    ∧ ∀ (username : Option String) (up : Upstream) (u : UserData) (rs : List RawRepo),
        up.user (interpolate username) = some u →
        up.repos (interpolate username) = some rs →
        (handler "POST" username up).1.status = 200 := by
  refine ⟨?_, ?_, ?_, ?_, ?_, ?_⟩
  · simp [enrichRepo, hfail]
  · simp [enrichRepo, hfail]; rfl
  · exact List.mem_map_of_mem (fun repo => enrichRepo repo (activity repo.name)) hr
  · simp [projectsOf]
  · intro r' _ hne
    rw [hagree r'.name hne]
  · intro username up u rs hu hrs
    simp [handler, hu, hrs]

unseal List.merge List.mergeSort in
/-- Witness for C6: with the profile and repository fetches succeeding and the
activity fetch failing exactly for the top repository "alpha", that repository
still appears with an empty series and zero recent commits. -/
theorem C6_activity_best_effort_witness :
    repoA ∈ topRepos demoRepos
    ∧ demoActivity repoA.name = none
    ∧ (enrichRepo repoA (demoActivity repoA.name)).commitWeeks = []
    ∧ (enrichRepo repoA (demoActivity repoA.name)).recentCommits = 0 :=
  ⟨by decide, by decide,
    (C6_activity_best_effort demoRepos demoActivity demoActivity repoA (by decide) (by decide)
      (fun _ _ => rfl)).1,
    (C6_activity_best_effort demoRepos demoActivity demoActivity repoA (by decide) (by decide)
      (fun _ _ => rfl)).2.1⟩

/-- **C2 counterexample.** "At most one project is expanded at every reachable
UI state" fails on the code: each `ProjectCard` keeps its own `isMaximized`
`useState` flag and `toggleMaximize` flips only that flag, so with two
compatible cards the click sequence (open sandbox on card 0, maximize card 0,
open sandbox on card 1, maximize card 1) reaches a state in which both cards
are expanded simultaneously — expanding B did not collapse A. -/
theorem C2_single_expanded_counterexample :
    Reachable (fun _ => true) 2 ⟨[⟨true, true⟩, ⟨true, true⟩], none⟩
    ∧ ¬ expandedCount ⟨[⟨true, true⟩, ⟨true, true⟩], none⟩ ≤ 1 := by
  refine ⟨⟨[.toggleSandbox 0, .toggleMaximize 0, .toggleSandbox 1, .toggleMaximize 1], ?_⟩, ?_⟩
  · decide
  · decide

/-- **C2 amended.** The UI tracks a per-project flag, not a single
currently-expanded identity: `toggleMaximize` on card `i` flips only card
`i`'s own `isMaximized` flag, every other card's state is untouched (so
expanding B while A is expanded leaves A expanded, and several cards can be
expanded at once), and the `Home`-level `maximizedProject` state is dead — no
transition ever changes it. -/
theorem C2_per_card_maximize (compat : Nat → Bool) (s s' : UiState) (i : Nat)
    (h : uiStep compat s (.toggleMaximize i) = some s') :
    (∀ j, j ≠ i → s'.cards[j]? = s.cards[j]?)
    ∧ (∀ c, s.cards[i]? = some c →
        s'.cards[i]? = some { c with isMaximized := !c.isMaximized })
    ∧ s'.maximizedProject = s.maximizedProject := by
  simp only [uiStep] at h
  cases hc : s.cards[i]? with
  | none => rw [hc] at h; simp at h
  | some c =>
    rw [hc] at h
    dsimp only at h
    by_cases hg : (c.showSandbox && (compat i || c.isMaximized)) = true
    · rw [if_pos hg] at h
      simp only [Option.some.injEq] at h
      subst h
      have hlt : i < s.cards.length := by
        by_contra hge
        rw [List.getElem?_eq_none (by omega)] at hc
        exact Option.noConfusion hc
      refine ⟨?_, ?_, rfl⟩
      · intro j hj
        simpa using List.getElem?_set_ne (Ne.symm hj)
      · intro c' hc'
        cases hc'
        simpa using List.getElem?_set_self hlt
    · rw [if_neg hg] at h
      exact Option.noConfusion h

/-- Witness for C2 (amended): maximizing card 0 flips only card 0 and leaves
card 1's state untouched. -/
theorem C2_per_card_maximize_witness :
    uiStep (fun _ => true) ⟨[⟨true, false⟩, ⟨true, true⟩], none⟩ (.toggleMaximize 0)
      = some ⟨[⟨true, true⟩, ⟨true, true⟩], none⟩
    ∧ (⟨[⟨true, true⟩, ⟨true, true⟩], none⟩ : UiState).cards[1]?
      = (⟨[⟨true, false⟩, ⟨true, true⟩], none⟩ : UiState).cards[1]? :=
  ⟨by decide,
    (C2_per_card_maximize (fun _ => true) ⟨[⟨true, false⟩, ⟨true, true⟩], none⟩
      ⟨[⟨true, true⟩, ⟨true, true⟩], none⟩ 0 (by decide)).1 1 (by decide)⟩

/-- **C7.** For every component state and chosen sort key, computing the
displayed list leaves the component state — in particular the stored
`data.projects` sequence — unchanged (the sort operates on a copy), and the
sort is stable: the displayed list is a permutation of the filtered list that
is ordered by the comparator, and any comparator-sorted sublist of the
filtered list (e.g. a run of tied elements in original order) survives into
the displayed list. The comparator hypotheses hold for every sort key the UI
offers (`localeCompare` is a total preorder). -/
theorem C7_sort_stable_no_mutation (lc : String → String → Int) (st : HomeState)
    (htrans : ∀ a b c : Project, sortLe lc st.sortBy a b → sortLe lc st.sortBy b c →
        sortLe lc st.sortBy a c)
    (htotal : ∀ a b : Project, sortLe lc st.sortBy a b || sortLe lc st.sortBy b a) :
    (getFilteredProjects lc st).2 = st
    ∧ ∀ ps, st.data = some ps →
        List.Perm (getFilteredProjects lc st).1 (filterStep st.filterLanguage ps)
        ∧ ((getFilteredProjects lc st).1).Pairwise
            (fun a b => sortLe lc st.sortBy a b = true)
        ∧ ∀ c : List Project, c.Pairwise (fun a b => sortLe lc st.sortBy a b = true) →
            List.Sublist c (filterStep st.filterLanguage ps) →
            List.Sublist c (getFilteredProjects lc st).1 := by
  constructor
  · unfold getFilteredProjects
    cases st.data <;> rfl
  · intro ps hps
    simp only [getFilteredProjects, hps]
    exact ⟨List.mergeSort_perm _ _,
      List.sorted_mergeSort htrans htotal _,
      fun c hc hsub => List.sublist_mergeSort htrans htotal hc hsub⟩

/-- On the "stars" key the switch comparator is the star-count difference. -/
lemma projCmp_stars (lc : String → String → Int) (a b : Project) :
    projCmp lc "stars" a b = (b.stars : Int) - (a.stars : Int) := rfl

lemma sortLe_stars_trans (lc : String → String → Int) :
    ∀ a b c : Project, sortLe lc "stars" a b → sortLe lc "stars" b c →
      sortLe lc "stars" a c := by
  intro a b c hab hbc
  simp only [sortLe, projCmp_stars, decide_eq_true_eq] at *
  omega

lemma sortLe_stars_total (lc : String → String → Int) :
    ∀ a b : Project, sortLe lc "stars" a b || sortLe lc "stars" b a := by
  intro a b
  simp only [sortLe, projCmp_stars, Bool.or_eq_true, decide_eq_true_eq]
  omega

/-- Concrete projects used in presenter witnesses. -/
def demoProjects : List Project :=
  [enrichRepo repoA none, enrichRepo repoB (some [⟨1, 5⟩])]

def demoHome : HomeState :=
  { data := some demoProjects, sortBy := "stars", filterLanguage := "" }

/-- Witness for C7 with the "stars" sort key on concrete data: the stored
state (hence the fetched project sequence) is returned unchanged. -/
theorem C7_sort_stable_no_mutation_witness :
    (∀ a b c : Project, sortLe (fun _ _ => 0) "stars" a b →
        sortLe (fun _ _ => 0) "stars" b c → sortLe (fun _ _ => 0) "stars" a c)
    ∧ (∀ a b : Project,
        sortLe (fun _ _ => 0) "stars" a b || sortLe (fun _ _ => 0) "stars" b a)
    ∧ (getFilteredProjects (fun _ _ => 0) demoHome).2 = demoHome :=
  ⟨sortLe_stars_trans (fun _ _ => 0), sortLe_stars_total (fun _ _ => 0),
    (C7_sort_stable_no_mutation (fun _ _ => 0) demoHome
      (sortLe_stars_trans (fun _ _ => 0)) (sortLe_stars_total (fun _ _ => 0))).1⟩

/-- On the "name" key the switch comparator is exactly the collation of the
two names. -/
lemma projCmp_name (lc : String → String → Int) (a b : Project) :
    projCmp lc "name" a b = lc a.name b.name := rfl

/-- **C8.** Sorting by name orders the list ascending by the (case-sensitive,
locale-aware) collation `localeCompare` — modelled as an arbitrary collation
`lc` whose induced "comparator ≤ 0" relation is transitive and total, which
holds of an ICU collation — and the sort is idempotent: name-sorting an
already name-sorted list returns it unchanged. -/
theorem C8_name_sort_ascending_idempotent (lc : String → String → Int)
    (ps : List Project)
    (htrans : ∀ a b c : Project, sortLe lc "name" a b → sortLe lc "name" b c →
        sortLe lc "name" a c)
    (htotal : ∀ a b : Project, sortLe lc "name" a b || sortLe lc "name" b a) :
    (sortByName lc ps).Pairwise (fun a b => lc a.name b.name ≤ 0)
    ∧ sortByName lc (sortByName lc ps) = sortByName lc ps := by
  have hs : (sortByName lc ps).Pairwise (fun a b => sortLe lc "name" a b = true) :=
    List.sorted_mergeSort htrans htotal ps
  constructor
  · exact hs.imp fun h => by
      simpa [sortLe, projCmp_name, decide_eq_true_eq] using h
  · exact List.mergeSort_of_sorted hs

/-- A concrete collation for witnesses: lexicographic comparison of the
UTF-8 strings (a legitimate `localeCompare` behaviour). -/
def strCmp (a b : String) : Int :=
  if a < b then -1 else if b < a then 1 else 0

lemma strCmp_nonpos_iff (a b : String) : strCmp a b ≤ 0 ↔ a ≤ b := by
  unfold strCmp
  rcases lt_trichotomy a b with h | h | h
  · simp [h, le_of_lt h]
  · subst h; simp
  · rw [if_neg (by exact not_lt_of_gt h), if_pos h]
    simp [not_le_of_gt h]

lemma sortLe_strCmp_name (a b : Project) :
    sortLe strCmp "name" a b = true ↔ a.name ≤ b.name := by
  simp [sortLe, projCmp_name, strCmp_nonpos_iff]

lemma sortLe_strCmp_name_trans :
    ∀ a b c : Project, sortLe strCmp "name" a b → sortLe strCmp "name" b c →
      sortLe strCmp "name" a c := by
  intro a b c hab hbc
  rw [sortLe_strCmp_name] at *
  exact le_trans hab hbc

lemma sortLe_strCmp_name_total :
    ∀ a b : Project, sortLe strCmp "name" a b || sortLe strCmp "name" b a := by
  intro a b
  rcases le_total a.name b.name with h | h
  · simp [(sortLe_strCmp_name a b).mpr h]
  · simp [(sortLe_strCmp_name b a).mpr h]

/-- Witness for C8 with a concrete collation and concrete projects. -/
theorem C8_name_sort_witness :
    (∀ a b c : Project, sortLe strCmp "name" a b → sortLe strCmp "name" b c →
        sortLe strCmp "name" a c)
    ∧ (∀ a b : Project, sortLe strCmp "name" a b || sortLe strCmp "name" b a)
    ∧ sortByName strCmp (sortByName strCmp demoProjects) = sortByName strCmp demoProjects :=
  ⟨sortLe_strCmp_name_trans, sortLe_strCmp_name_total,
    (C8_name_sort_ascending_idempotent strCmp demoProjects
      sortLe_strCmp_name_trans sortLe_strCmp_name_total).2⟩

unseal String.mapAux in
/-- **C9.** A project exposes the sandbox toggle iff it is preview-eligible:
its primary language belongs to the fixed whitelist of web-oriented languages,
or one of its topic tags matches a fixed whitelist keyword case-insensitively
(every whitelist keyword is already lowercase, so lowercasing the tag is
exactly case-insensitive comparison). -/
theorem C9_preview_eligibility (proj : Project) :
    (rendersSandboxToggle proj = true ↔
      ((∃ l, proj.language = some l ∧ l ∈ compatibleLanguages)
        ∨ (∃ ts, proj.topics = some ts ∧ ∃ t ∈ ts, ∃ w ∈ compatibleTopics, t.toLower = w)))
    ∧ ∀ w ∈ compatibleTopics, w.toLower = w := by
  constructor
  · unfold rendersSandboxToggle isSandboxCompatible
    cases hl : proj.language with
    | none =>
      cases ht : proj.topics with
      | none => simp
      | some ts => simp [List.contains, List.any_eq_true]
    | some l =>
      cases ht : proj.topics with
      | none => simp [List.contains, List.any_eq_true]
      | some ts => simp [List.contains, List.any_eq_true]
  · intro w hw
    simp only [compatibleTopics, List.mem_cons, List.not_mem_nil, or_false] at hw
    rcases hw with rfl | rfl | rfl | rfl | rfl <;> rfl

/-- Witness for C9: a concrete JavaScript project is preview-eligible. -/
theorem C9_preview_eligibility_witness :
    rendersSandboxToggle (enrichRepo (mkRepo "web" 1 (some "JavaScript") false) none) = true :=
  ((C9_preview_eligibility (enrichRepo (mkRepo "web" 1 (some "JavaScript") false) none)).1).mpr
    (Or.inl ⟨"JavaScript", rfl, by decide⟩)

end GitHubSummarizer
